import Mathlib

/-!
Shallow embedding of the `canal` repository's bounded lock-free MPMC queue
(`src/mpmc/mpmc_bounded_queue.rs`) and of the channel state machine built on
top of it (`src/mpmc/channel.rs`), together with proofs about their
sequential behaviour.

Modelling conventions:
* `usize` is modelled as `Nat` and `isize` as `Int`.  The cursors and
  counters involved stay far below `2 ^ 63` in every execution considered
  here (they only ever grow by one per operation), so two's-complement
  wrap-around is never exercised and the unbounded types are a faithful
  model; `isize::MIN` appears explicitly as the constant `-(2 ^ 63)`.
* Operations are modelled as state transformers.  A result of
  `some (r, s')` is a normal return with result `r` and post-state `s'`;
  `none` means the operation does not return normally in a single-threaded
  execution (it spins forever on a retry branch whose reloaded state is
  unchanged, blocks on the condition variable with no other thread left to
  wake it, or panics on a failed assertion).  Each `none` branch is
  annotated at its definition site.
-/

/-- One ring-buffer slot (`struct Node` in `mpmc_bounded_queue.rs`):
a sequence number and an optional stored value. -/
structure Node (T : Type) where
  sequence : Nat
  value : Option T
deriving DecidableEq

/-- The bounded lock-free ring buffer (`struct LockFreeQueue`).  The padding
fields of the Rust struct are dead data and are omitted. -/
structure LockFreeQueue (T : Type) where
  buffer : List (Node T)
  mask : Nat
  enqueue_pos : Nat
  dequeue_pos : Nat
deriving DecidableEq

/-- Model of Rust std's `usize::next_power_of_two` (an external
standard-library function, not repository code).  Its documented contract is
to return the smallest power of two greater than or equal to `self` (`1` for
`0`), which is exactly `2 ^ Nat.clog 2 n`. -/
def next_power_of_two (n : Nat) : Nat := 2 ^ Nat.clog 2 n

namespace LockFreeQueue

/-- `LockFreeQueue::with_capacity`: round the requested capacity up (to `2`
if it is below `2`, else to the next power of two if it is not already one),
then build the slot array with `sequence := index` and empty cursors. -/
def with_capacity (T : Type) (capacity : Nat) : LockFreeQueue T :=
  let capacity :=
    if capacity < 2 || (capacity &&& (capacity - 1)) != 0 then
      if capacity < 2 then 2 else next_power_of_two capacity
    else capacity
  { buffer := (List.range capacity).map fun i => { sequence := i, value := none }
    mask := capacity - 1
    enqueue_pos := 0
    dequeue_pos := 0 }

/-- The slot a cursor position `p` addresses (`buffer[p & mask]`). -/
def slot (q : LockFreeQueue T) (p : Nat) : Node T :=
  q.buffer.getD (p &&& q.mask) ⟨0, none⟩

/-- `LockFreeQueue::push`, executed sequentially.  In a single-threaded
execution the compare-and-swap on `enqueue_pos` always succeeds (nothing can
change the cursor between its load and the CAS), and on the `diff > 0`
branch the cursor is reloaded to an identical value, so the loop would spin
forever re-reading the same state; that branch is the `none` case. -/
def push (q : LockFreeQueue T) (value : T) :
    Option ((Except T Unit) × LockFreeQueue T) :=
  let mask := q.mask
  let pos := q.enqueue_pos
  let node := slot q pos
  let diff : Int := (node.sequence : Int) - (pos : Int)
  if diff = 0 then
    some (Except.ok (),
      { q with
          buffer := q.buffer.set (pos &&& mask)
            { sequence := pos + 1, value := some value }
          enqueue_pos := pos + 1 })
  else if diff < 0 then
    some (Except.error value, q)
  else
    none

/-- `LockFreeQueue::pop`, executed sequentially (same conventions as
`push`).  On the success branch the slot's value is taken (leaving `none`)
and its sequence is republished as `pos + mask + 1`; note that the Rust code
returns the slot's `Option<T>` directly, so a (corrupt-state) empty slot
would be reported just like an empty queue. -/
def pop (q : LockFreeQueue T) :
    Option (Option T × LockFreeQueue T) :=
  let mask := q.mask
  let pos := q.dequeue_pos
  let node := slot q pos
  let diff : Int := (node.sequence : Int) - ((pos : Int) + 1)
  if diff = 0 then
    some (node.value,
      { q with
          buffer := q.buffer.set (pos &&& mask)
            { sequence := pos + mask + 1, value := none }
          dequeue_pos := pos + 1 })
  else if diff < 0 then
    some (none, q)
  else
    none

/-- Number of elements currently enqueued (cursor distance). -/
def size (q : LockFreeQueue T) : Nat := q.enqueue_pos - q.dequeue_pos

/-- The queue contents in FIFO order: the values of the slots addressed by
the positions `dequeue_pos, dequeue_pos + 1, …, enqueue_pos - 1`. -/
def items (q : LockFreeQueue T) : List T :=
  (List.range (size q)).filterMap fun i => (slot q (q.dequeue_pos + i)).value

/-- Well-formedness of a queue whose capacity is `2 ^ k`: the sequence
handshake invariant of the Vyukov ring buffer in a quiescent state.  A
position `p` in `[dequeue_pos, enqueue_pos)` addresses a pending slot
(`sequence = p + 1`, value present); a position in
`[enqueue_pos, dequeue_pos + capacity)` addresses a free slot
(`sequence = p`, value absent). -/
def WFk (k : Nat) (q : LockFreeQueue T) : Prop :=
  q.mask = 2 ^ k - 1 ∧ 1 ≤ k ∧
  q.buffer.length = q.mask + 1 ∧
  q.dequeue_pos ≤ q.enqueue_pos ∧
  q.enqueue_pos ≤ q.dequeue_pos + (q.mask + 1) ∧
  (∀ p, p < q.enqueue_pos → q.dequeue_pos ≤ p →
    (slot q p).sequence = p + 1 ∧ (slot q p).value.isSome = true) ∧
  (∀ p, p < q.dequeue_pos + (q.mask + 1) → q.enqueue_pos ≤ p →
    (slot q p).sequence = p ∧ (slot q p).value = none)

instance instDecidableWFk [DecidableEq T] (k : Nat) (q : LockFreeQueue T) :
    Decidable (WFk k q) := by
  unfold WFk
  infer_instance

/-- A queue is well formed if it is `WFk k` for some exponent `k ≥ 1`. -/
def WF (q : LockFreeQueue T) : Prop := ∃ k, WFk k q

/-- The state `pop` leaves behind on its success branch. -/
def popped (q : LockFreeQueue T) : LockFreeQueue T :=
  { q with
      buffer := q.buffer.set (q.dequeue_pos &&& q.mask)
        { sequence := q.dequeue_pos + q.mask + 1, value := none }
      dequeue_pos := q.dequeue_pos + 1 }

/-- The state `push` leaves behind on its success branch. -/
def pushed (q : LockFreeQueue T) (v : T) : LockFreeQueue T :=
  { q with
      buffer := q.buffer.set (q.enqueue_pos &&& q.mask)
        { sequence := q.enqueue_pos + 1, value := some v }
      enqueue_pos := q.enqueue_pos + 1 }

end LockFreeQueue

/-- A queue operation of the capacity-2 scenario runner. -/
inductive QOp (T : Type) where
  | push (v : T)
  | pop

/-- Run a list of queue operations sequentially, recording each result
(`Sum.inl` for a push result, `Sum.inr` for a pop result); `none` if any
operation fails to return (see `LockFreeQueue.push`). -/
def runQueue {T : Type} : List (QOp T) → LockFreeQueue T →
    Option (List (Except T Unit ⊕ Option T) × LockFreeQueue T)
  | [], q => some ([], q)
  | QOp.push v :: ops, q =>
    (LockFreeQueue.push q v).bind fun rq =>
      (runQueue ops rq.2).map fun rsq => (Sum.inl rq.1 :: rsq.1, rsq.2)
  | QOp.pop :: ops, q =>
    (LockFreeQueue.pop q).bind fun rq =>
      (runQueue ops rq.2).map fun rsq => (Sum.inr rq.1 :: rsq.1, rsq.2)

/-! The channel (`src/mpmc/channel.rs`). -/

/-- Failure modes for receiving on the port (`enum Failure`). -/
inductive Failure where
  | Empty
  | Disconnected
deriving DecidableEq

/-- `const DISCONNECTED: isize = isize::MIN` (64-bit). -/
def DISCONNECTED : Int := -(2 ^ 63)

/-- `const FUDGE: isize = 1024`. -/
def FUDGE : Int := 1024

/-- `const MAX_STEALS: isize = 1 << 20` (the `cfg(not(test))` value; under
`cfg(test)` the source uses `5`). -/
def MAX_STEALS : Int := 2 ^ 20

/-- The shared channel state (`struct Canal`).  The mutex-guarded boolean
`should_block` is modelled directly as the boolean it guards; the condition
variable carries no state of its own. -/
structure Canal (T : Type) where
  queue : LockFreeQueue T
  cnt : Int
  steals : Int
  should_block : Bool
  channels : Int
  ports : Int
  sender_drain : Int
deriving DecidableEq

namespace Canal

/-- `Canal::new`. -/
def new (T : Type) (cap : Nat) : Canal T :=
  { queue := LockFreeQueue.with_capacity T cap
    cnt := 0
    steals := 0
    should_block := false
    channels := 1
    ports := 1
    sender_drain := 0 }

/-- `Canal::wake_port`: set `should_block` to `false` and notify one waiter
(the notification itself carries no sequential state). -/
def wake_port (c : Canal T) : Canal T :=
  { c with should_block := false }

/-- `Canal::bump`: `cnt.fetch_add(amt)`, re-storing `DISCONNECTED` if the
previous value was the sentinel; returns the previous value. -/
def bump (c : Canal T) (amt : Int) : Int × Canal T :=
  let n := c.cnt
  let c1 := { c with cnt := n + amt }
  if n = DISCONNECTED then (DISCONNECTED, { c1 with cnt := DISCONNECTED })
  else (n, c1)

/-- `Canal::try_recv`, executed sequentially.  `none` arises only if a
`pop` fails to return (see `LockFreeQueue.pop`) or the
`assert!(self.steals >= 0)` fails. -/
def try_recv (c : Canal T) : Option ((Except Failure T) × Canal T) :=
  match LockFreeQueue.pop c.queue with
  | none => none
  | some (some data, q1) =>
    let c1 := { c with queue := q1 }
    if c1.steals > MAX_STEALS then
      -- reconcile the steal credits against cnt: cnt.swap(0), then …
      let n := c1.cnt
      let c2 :=
        if n = DISCONNECTED then
          -- … re-store the sentinel
          { c1 with cnt := DISCONNECTED }
        else
          -- … pay back min(n, steals) and bump the remainder back in
          let m := min n c1.steals
          (bump { c1 with cnt := 0, steals := c1.steals - m } (n - m)).2
      if c2.steals ≥ 0 then some (Except.ok data, { c2 with steals := c2.steals + 1 })
      else none
    else some (Except.ok data, { c1 with steals := c1.steals + 1 })
  | some (none, q1) =>
    let c1 := { c with queue := q1 }
    if c1.cnt ≠ DISCONNECTED then some (Except.error Failure.Empty, c1)
    else
      -- one final pop to catch a value pushed just before the disconnect
      match LockFreeQueue.pop c1.queue with
      | none => none
      | some (some t, q2) => some (Except.ok t, { c1 with queue := q2 })
      | some (none, q2) => some (Except.error Failure.Disconnected, { c1 with queue := q2 })

/-- `Canal::decrement`, executed sequentially: zero the steal credits and
`cnt.fetch_sub(1 + steals)`.  Returns `some (true, _)` when the caller must
block (the code sets the guarded flag and hands back the guard),
`some (false, _)` when it must not, `none` when the
`assert!(n > -1 - FUDGE)` fails. -/
def decrement (c : Canal T) : Option (Bool × Canal T) :=
  let steals := c.steals
  let c1 := { c with steals := 0 }
  let n := c1.cnt
  let c2 := { c1 with cnt := n - (1 + steals) }
  if n = DISCONNECTED then some (false, { c2 with cnt := DISCONNECTED })
  else if n > -1 - FUDGE then
    if n - steals ≤ 0 then some (true, { c2 with should_block := true })
    else some (false, c2)
  else none

/-- `Canal::recv`, executed sequentially.  When `decrement` says to block,
the caller waits on the condition variable with `should_block = true`; with
no other thread left to run, nothing can wake it, so the call never returns
(`none`). -/
def recv (c : Canal T) : Option ((Except Failure T) × Canal T) :=
  match try_recv c with
  | none => none
  | some (Except.error Failure.Empty, c1) =>
    (match decrement c1 with
    | none => none
    | some (true, _) => none
    | some (false, c2) =>
      match try_recv c2 with
      | none => none
      | some (Except.ok v, c3) => some (Except.ok v, { c3 with steals := c3.steals - 1 })
      | some r => some r)
  | some r => some r

/-- The drain loop `loop { match self.queue.pop() … }` (used by `send`'s
disconnected branch and by `drop_port`), with the number of successful pops
counted.  `fuel` bounds the iteration count: the callers pass the current
`size` of the queue, which bounds the number of pops that can succeed in a
sequential execution of a well-formed queue, so exhausted fuel (like a
non-returning `pop`) models a non-returning loop. -/
def drainCount : Nat → LockFreeQueue T → Option (Nat × LockFreeQueue T)
  | 0, q =>
    match LockFreeQueue.pop q with
    | some (none, q1) => some (0, q1)
    | _ => none
  | fuel + 1, q =>
    match LockFreeQueue.pop q with
    | none => none
    | some (none, q1) => some (0, q1)
    | some (some _, q1) => (drainCount fuel q1).map fun p => (p.1 + 1, p.2)

/-- `Canal::send`, executed sequentially.  In the disconnected-while-sending
branch, this thread is the only live one, so `sender_drain.fetch_add(1)`
reads whatever the field holds; if it was `0` this thread is the drain
owner, drains once, and its `fetch_sub` then returns `1`, ending the drain
loop after one pass. -/
def send (c : Canal T) (t : T) : Option ((Except T Unit) × Canal T) :=
  if c.ports = 0 then some (Except.error t, c)
  else if c.cnt < DISCONNECTED + FUDGE then some (Except.error t, c)
  else
    match LockFreeQueue.push c.queue t with
    | none => none
    | some (Except.error v, q1) => some (Except.error v, { c with queue := q1 })
    | some (Except.ok _, q1) =>
      let n := c.cnt
      let c1 := { c with queue := q1, cnt := n + 1 }
      if n ≤ -1 ∧ n > -1 - FUDGE then
        some (Except.ok (), wake_port c1)
      else if n < DISCONNECTED + FUDGE then
        let c2 := { c1 with cnt := DISCONNECTED }
        let sd : Int := c2.sender_drain
        let c3 := { c2 with sender_drain := sd + 1 }
        if sd = 0 then
          match drainCount (LockFreeQueue.size c3.queue) c3.queue with
          | none => none
          | some (_, q2) =>
            some (Except.ok (), { c3 with queue := q2, sender_drain := c3.sender_drain - 1 })
        else some (Except.ok (), c3)
      else some (Except.ok (), c1)

/-- `Canal::clone_chan`: bump the sender refcount. -/
def clone_chan (c : Canal T) : Canal T :=
  { c with channels := c.channels + 1 }

/-- `Canal::clone_port`: bump the receiver refcount. -/
def clone_port (c : Canal T) : Canal T :=
  { c with ports := c.ports + 1 }

/-- `Canal::drop_chan`, executed sequentially.  `none` is the
`panic!("bad number of channels left")` (when `channels < 1`) or the
`assert!(n >= 0)` in the swap match. -/
def drop_chan (c : Canal T) : Option (Canal T) :=
  let n := c.channels
  let c1 := { c with channels := n - 1 }
  if n = 1 then
    let oc := c1.cnt
    let c2 := { c1 with cnt := DISCONNECTED }
    if oc = -1 then some (wake_port c2)
    else if oc = DISCONNECTED then some c2
    else if oc ≥ 0 then some c2 else none
  else if n > 1 then some c1
  else none

/-- The `while { … } { … }` loop of `Canal::drop_port`: compare-and-swap
`cnt` from the local steal count to `DISCONNECTED`; while the previous value
is neither `DISCONNECTED` nor the expected steal count, drain the queue
(counting each pop into the local steal count) and retry.  Sequentially the
loop state can change only on an iteration that drains a non-empty queue,
and draining empties it, so after two iterations the state repeats; three
units of fuel therefore decide whether the loop ever exits. -/
def dropPortLoop : Nat → Int → Int → LockFreeQueue T → Option (Int × LockFreeQueue T)
  | 0, _, _, _ => none
  | fuel + 1, steals, cnt, q =>
    let cnt1 := if cnt = steals then DISCONNECTED else cnt
    if cnt ≠ DISCONNECTED ∧ cnt ≠ steals then
      match drainCount (LockFreeQueue.size q) q with
      | none => none
      | some (k, q1) => dropPortLoop fuel (steals + (k : Int)) cnt1 q1
    else some (cnt1, q)

/-- `Canal::drop_port`, executed sequentially.  The local `steals` variable
of the loop starts from `self.steals` and is never written back.  `none`
is the `panic!` (when `ports < 1`) or a non-terminating loop. -/
def drop_port (c : Canal T) : Option (Canal T) :=
  let n := c.ports
  let c1 := { c with ports := n - 1 }
  if n = 1 then
    match dropPortLoop 3 c1.steals c1.cnt c1.queue with
    | none => none
    | some (cnt1, q1) => some { c1 with cnt := cnt1, queue := q1 }
  else if n > 1 then some c1
  else none

/-- Sequential well-formedness of a quiescent channel: the queue is well
formed, the steal credits are non-negative, and `cnt` is either the
disconnected sentinel or exactly `size + steals` (each enqueued item is
counted once, minus the pops whose decrement is still held as steal
credit). -/
def WF (c : Canal T) : Prop :=
  LockFreeQueue.WF c.queue ∧ 0 ≤ c.steals ∧
  (c.cnt = DISCONNECTED ∨ c.cnt = (LockFreeQueue.size c.queue : Int) + c.steals)

end Canal

/-- Iterate `Canal.recv` `n` times, collecting the results. -/
def recvN {T : Type} : Nat → Canal T → Option (List (Except Failure T) × Canal T)
  | 0, c => some ([], c)
  | n + 1, c =>
    match Canal.recv c with
    | none => none
    | some (r, c1) =>
      match recvN n c1 with
      | none => none
      | some (rs, c2) => some (r :: rs, c2)

/-! Concrete states used to instantiate the hypotheses of the theorems
below. -/

/-- A full capacity-2 queue holding `10, 20` (reachable by two pushes). -/
def wqFull : LockFreeQueue Nat :=
  { buffer := [⟨1, some 10⟩, ⟨2, some 20⟩]
    mask := 1
    enqueue_pos := 2
    dequeue_pos := 0 }

/-- An open channel holding one item `7` (reachable by `new 2` + `send 7`). -/
def wcOpen : Canal Nat :=
  { queue := { buffer := [⟨1, some 7⟩, ⟨1, none⟩], mask := 1,
               enqueue_pos := 1, dequeue_pos := 0 }
    cnt := 1
    steals := 0
    should_block := false
    channels := 1
    ports := 1
    sender_drain := 0 }

/-- The same channel with no live receiver handles. -/
def wcPorts0 : Canal Nat := { wcOpen with ports := 0 }

/-- The same channel after a disconnect. -/
def wcDisc : Canal Nat := { wcOpen with cnt := DISCONNECTED }

/-- An empty channel whose counter sits one above the sentinel: inside the
documented "disconnected band" but not equal to `DISCONNECTED`. -/
def wcBand : Canal Nat :=
  { queue := LockFreeQueue.with_capacity Nat 2
    cnt := DISCONNECTED + 1
    steals := 0
    should_block := false
    channels := 1
    ports := 1
    sender_drain := 0 }

/-- An empty channel exactly at the sentinel. -/
def wcDiscEmpty : Canal Nat := { wcBand with cnt := DISCONNECTED }

namespace LockFreeQueue

/-! Helper lemmas about list indexing and modular slot addressing. -/

theorem getD_set_self_of_lt {α : Type} {l : List α} {i : Nat}
    (h : i < l.length) (a d : α) : (l.set i a).getD i d = a := by
  rw [List.getD_eq_getElem?_getD, List.getElem?_set_self h]
  rfl

theorem getD_set_of_ne {α : Type} {l : List α} {i j : Nat}
    (h : i ≠ j) (a d : α) : (l.set i a).getD j d = l.getD j d := by
  rw [List.getD_eq_getElem?_getD, List.getElem?_set_ne h,
    ← List.getD_eq_getElem?_getD]

theorem mod_ne_of_between {a b n : Nat} (hab : a < b) (h : b - a < n) :
    a % n ≠ b % n := by
  intro he
  have hd : n ∣ b - a := (Nat.modEq_iff_dvd' (Nat.le_of_lt hab)).1 he
  have := Nat.le_of_dvd (by omega) hd
  omega

theorem and_mask_eq_mod {k p m : Nat} (hm : m = 2 ^ k - 1) :
    p &&& m = p % (2 ^ k) := by
  rw [hm, Nat.and_pow_two_sub_one_eq_mod]

/-- A position strictly between `a` (exclusive distance `< 2 ^ k`) and `a`
addresses a different slot than `a` does. -/
theorem slot_index_ne {k a b m : Nat} (hm : m = 2 ^ k - 1)
    (hab : a < b) (h : b - a < 2 ^ k) : a &&& m ≠ b &&& m := by
  rw [and_mask_eq_mod hm, and_mask_eq_mod hm]
  exact mod_ne_of_between hab h

/-! Behaviour of `pop` and `push` on well-formed queues. -/

theorem popped_mask (q : LockFreeQueue T) : (popped q).mask = q.mask := rfl

theorem popped_enqueue (q : LockFreeQueue T) :
    (popped q).enqueue_pos = q.enqueue_pos := rfl

theorem popped_dequeue (q : LockFreeQueue T) :
    (popped q).dequeue_pos = q.dequeue_pos + 1 := rfl

theorem pushed_mask (q : LockFreeQueue T) (v : T) : (pushed q v).mask = q.mask := rfl

theorem pushed_enqueue (q : LockFreeQueue T) (v : T) :
    (pushed q v).enqueue_pos = q.enqueue_pos + 1 := rfl

theorem pushed_dequeue (q : LockFreeQueue T) (v : T) :
    (pushed q v).dequeue_pos = q.dequeue_pos := rfl

theorem size_popped (q : LockFreeQueue T) : size (popped q) = size q - 1 := by
  show q.enqueue_pos - (q.dequeue_pos + 1) = q.enqueue_pos - q.dequeue_pos - 1
  omega

theorem size_pushed (q : LockFreeQueue T) (v : T)
    (h : q.dequeue_pos ≤ q.enqueue_pos) : size (pushed q v) = size q + 1 := by
  show q.enqueue_pos + 1 - q.dequeue_pos = q.enqueue_pos - q.dequeue_pos + 1
  omega

theorem slot_popped_of_ne {q : LockFreeQueue T} {p : Nat}
    (h : q.dequeue_pos &&& q.mask ≠ p &&& q.mask) :
    slot (popped q) p = slot q p := by
  unfold slot popped
  exact getD_set_of_ne h _ _

theorem slot_popped_self {q : LockFreeQueue T} {p : Nat}
    (hidx : p &&& q.mask = q.dequeue_pos &&& q.mask)
    (hlt : q.dequeue_pos &&& q.mask < q.buffer.length) :
    slot (popped q) p = { sequence := q.dequeue_pos + q.mask + 1, value := none } := by
  unfold slot popped
  show (q.buffer.set _ _).getD (p &&& q.mask) _ = _
  rw [hidx]
  exact getD_set_self_of_lt hlt _ _

theorem slot_pushed_of_ne {q : LockFreeQueue T} {p : Nat} {v : T}
    (h : q.enqueue_pos &&& q.mask ≠ p &&& q.mask) :
    slot (pushed q v) p = slot q p := by
  unfold slot pushed
  exact getD_set_of_ne h _ _

theorem slot_pushed_self {q : LockFreeQueue T} {p : Nat} {v : T}
    (hidx : p &&& q.mask = q.enqueue_pos &&& q.mask)
    (hlt : q.enqueue_pos &&& q.mask < q.buffer.length) :
    slot (pushed q v) p = { sequence := q.enqueue_pos + 1, value := some v } := by
  unfold slot pushed
  show (q.buffer.set _ _).getD (p &&& q.mask) _ = _
  rw [hidx]
  exact getD_set_self_of_lt hlt _ _

/-! Unconditional evaluation lemmas for `pop` and `push`, keyed only on the
sequence number of the addressed slot. -/

theorem pop_eq_of_seq {q : LockFreeQueue T}
    (h : (slot q q.dequeue_pos).sequence = q.dequeue_pos + 1) :
    pop q = some ((slot q q.dequeue_pos).value, popped q) := by
  have hc : ((q.dequeue_pos + 1 : Nat) : Int) - ((q.dequeue_pos : Int) + 1) = 0 := by
    push_cast
    ring
  unfold pop popped
  simp only [h, hc, if_pos]

theorem pop_none_of_seq {q : LockFreeQueue T}
    (h : (slot q q.dequeue_pos).sequence = q.dequeue_pos) :
    pop q = some (none, q) := by
  have hc1 : ¬ ((q.dequeue_pos : Int) - ((q.dequeue_pos : Int) + 1) = 0) := by omega
  have hc2 : (q.dequeue_pos : Int) - ((q.dequeue_pos : Int) + 1) < 0 := by omega
  unfold pop
  simp only [h, if_neg hc1, if_pos hc2]

theorem push_eq_of_seq {q : LockFreeQueue T} (v : T)
    (h : (slot q q.enqueue_pos).sequence = q.enqueue_pos) :
    push q v = some (Except.ok (), pushed q v) := by
  have hc : (q.enqueue_pos : Int) - (q.enqueue_pos : Int) = 0 := by ring
  unfold push pushed
  simp only [h, hc, if_pos]

theorem push_err_of_seq_lt {q : LockFreeQueue T} (v : T)
    (h : ((slot q q.enqueue_pos).sequence : Int) < (q.enqueue_pos : Int)) :
    push q v = some (Except.error v, q) := by
  have hc1 : ¬ (((slot q q.enqueue_pos).sequence : Int) - (q.enqueue_pos : Int) = 0) := by
    omega
  have hc2 : ((slot q q.enqueue_pos).sequence : Int) - (q.enqueue_pos : Int) < 0 := by
    omega
  unfold push
  simp only [if_neg hc1, if_pos hc2]

/-! Behaviour of `pop` and `push` on well-formed queues. -/

theorem pop_empty {T : Type} {k : Nat} {q : LockFreeQueue T}
    (hWF : WFk k q) (h : size q = 0) : pop q = some (none, q) := by
  obtain ⟨hm, hk, hlen, hde, hcap, hfull, hfree⟩ := hWF
  have hcappos := Nat.two_pow_pos k
  have hfr := hfree q.dequeue_pos (by omega) (by unfold size at h; omega)
  exact pop_none_of_seq hfr.1

theorem pop_cons {T : Type} {k : Nat} {q : LockFreeQueue T}
    (hWF : WFk k q) (h : 0 < size q) :
    ∃ v, (slot q q.dequeue_pos).value = some v ∧
      pop q = some (some v, popped q) ∧ WFk k (popped q) ∧
      items q = v :: items (popped q) := by
  obtain ⟨hm, hk, hlen, hde, hcap, hfull, hfree⟩ := hWF
  have hcap2 : 2 ≤ 2 ^ k := by
    calc 2 = 2 ^ 1 := rfl
    _ ≤ 2 ^ k := Nat.pow_le_pow_right (by omega) hk
  have hmask1 : q.mask + 1 = 2 ^ k := by omega
  have hdlt : q.dequeue_pos < q.enqueue_pos := by unfold size at h; omega
  have hfl := hfull q.dequeue_pos hdlt le_rfl
  obtain ⟨v, hv⟩ := Option.isSome_iff_exists.1 hfl.2
  refine ⟨v, hv, ?_, ?_, ?_⟩
  · rw [pop_eq_of_seq hfl.1, hv]
  · -- well-formedness of the popped queue
    refine ⟨hm, hk, ?_, ?_, ?_, ?_, ?_⟩
    · show (q.buffer.set _ _).length = q.mask + 1
      rw [List.length_set]
      exact hlen
    · show q.dequeue_pos + 1 ≤ q.enqueue_pos
      omega
    · show q.enqueue_pos ≤ q.dequeue_pos + 1 + (q.mask + 1)
      omega
    · intro p hp1 hp2
      rw [popped_enqueue] at hp1
      rw [popped_dequeue] at hp2
      rw [slot_popped_of_ne (slot_index_ne hm (by omega) (by omega))]
      exact hfull p hp1 (by omega)
    · intro p hp1 hp2
      rw [popped_dequeue, popped_mask] at hp1
      rw [popped_enqueue] at hp2
      by_cases hpd : p = q.dequeue_pos + (q.mask + 1)
      · have hidx : p &&& q.mask = q.dequeue_pos &&& q.mask := by
          rw [and_mask_eq_mod hm, and_mask_eq_mod hm, hpd, hmask1,
            Nat.add_mod_right]
        have hlt : q.dequeue_pos &&& q.mask < q.buffer.length := by
          rw [and_mask_eq_mod hm, hlen]
          have := Nat.mod_lt q.dequeue_pos (Nat.two_pow_pos k)
          omega
        rw [slot_popped_self hidx hlt]
        exact ⟨by show q.dequeue_pos + q.mask + 1 = p; omega, rfl⟩
      · rw [slot_popped_of_ne (slot_index_ne hm (by omega) (by omega))]
        exact hfree p (by omega) (by omega)
  · -- items q = v :: items (popped q)
    have hsz : size q = (size q - 1) + 1 := by omega
    have hszq' : size (popped q) = size q - 1 := size_popped q
    have hF0 : (slot q (q.dequeue_pos + 0)).value = some v := by
      simpa using hv
    have hcong : ∀ i ∈ List.range (size q - 1),
        (slot (popped q) (q.dequeue_pos + 1 + i)).value =
        ((fun i => (slot q (q.dequeue_pos + i)).value) ∘ Nat.succ) i := by
      intro i hi
      rw [List.mem_range] at hi
      have hne : q.dequeue_pos &&& q.mask ≠ (q.dequeue_pos + 1 + i) &&& q.mask := by
        refine slot_index_ne hm (by omega) ?_
        unfold size at hi
        omega
      rw [slot_popped_of_ne hne]
      show (slot q (q.dequeue_pos + 1 + i)).value =
        (slot q (q.dequeue_pos + (i + 1))).value
      congr 2
      omega
    unfold items
    simp only [hszq', popped_dequeue]
    conv_lhs => rw [hsz, List.range_succ_eq_map]
    rw [List.filterMap_cons]
    simp only [hF0]
    rw [List.filterMap_congr hcong, List.filterMap_map]

theorem push_full {T : Type} {k : Nat} {q : LockFreeQueue T}
    (hWF : WFk k q) (h : size q = q.mask + 1) (v : T) :
    push q v = some (Except.error v, q) := by
  obtain ⟨hm, hk, hlen, hde, hcap, hfull, hfree⟩ := hWF
  have hcap2 : 2 ≤ 2 ^ k := by
    calc 2 = 2 ^ 1 := rfl
    _ ≤ 2 ^ k := Nat.pow_le_pow_right (by omega) hk
  have hmask1 : q.mask + 1 = 2 ^ k := by omega
  have he : q.enqueue_pos = q.dequeue_pos + (q.mask + 1) := by
    unfold size at h
    omega
  have hidx : q.enqueue_pos &&& q.mask = q.dequeue_pos &&& q.mask := by
    rw [and_mask_eq_mod hm, and_mask_eq_mod hm, he, hmask1, Nat.add_mod_right]
  have hfl := hfull q.dequeue_pos (by omega) le_rfl
  have hslot : slot q q.enqueue_pos = slot q q.dequeue_pos := by
    unfold slot
    rw [hidx]
  refine push_err_of_seq_lt v ?_
  rw [hslot, hfl.1]
  push_cast [he]
  omega

theorem push_ok {T : Type} {k : Nat} {q : LockFreeQueue T}
    (hWF : WFk k q) (h : size q < q.mask + 1) (v : T) :
    push q v = some (Except.ok (), pushed q v) ∧ WFk k (pushed q v) ∧
      items (pushed q v) = items q ++ [v] := by
  obtain ⟨hm, hk, hlen, hde, hcap, hfull, hfree⟩ := hWF
  have hcap2 : 2 ≤ 2 ^ k := by
    calc 2 = 2 ^ 1 := rfl
    _ ≤ 2 ^ k := Nat.pow_le_pow_right (by omega) hk
  have hmask1 : q.mask + 1 = 2 ^ k := by omega
  have helt : q.enqueue_pos < q.dequeue_pos + (q.mask + 1) := by
    unfold size at h
    omega
  have hfr := hfree q.enqueue_pos helt le_rfl
  have hltE : q.enqueue_pos &&& q.mask < q.buffer.length := by
    rw [and_mask_eq_mod hm, hlen]
    have := Nat.mod_lt q.enqueue_pos (Nat.two_pow_pos k)
    omega
  refine ⟨push_eq_of_seq v hfr.1, ?_, ?_⟩
  · -- well-formedness of the pushed queue
    refine ⟨hm, hk, ?_, ?_, ?_, ?_, ?_⟩
    · show (q.buffer.set _ _).length = q.mask + 1
      rw [List.length_set]
      exact hlen
    · show q.dequeue_pos ≤ q.enqueue_pos + 1
      omega
    · show q.enqueue_pos + 1 ≤ q.dequeue_pos + (q.mask + 1)
      omega
    · intro p hp1 hp2
      rw [pushed_enqueue] at hp1
      rw [pushed_dequeue] at hp2
      by_cases hpe : p = q.enqueue_pos
      · rw [slot_pushed_self (by rw [hpe]) hltE]
        exact ⟨by rw [hpe], rfl⟩
      · rw [slot_pushed_of_ne (Ne.symm (slot_index_ne hm (by omega) (by omega)))]
        exact hfull p (by omega) (by omega)
    · intro p hp1 hp2
      rw [pushed_dequeue, pushed_mask] at hp1
      rw [pushed_enqueue] at hp2
      rw [slot_pushed_of_ne (slot_index_ne hm (by omega) (by omega))]
      exact hfree p (by omega) (by omega)
  · -- items of the pushed queue
    have hszq' : size (pushed q v) = size q + 1 := size_pushed q v hde
    have hde2 : q.dequeue_pos + size q = q.enqueue_pos := by
      unfold size
      omega
    have hlast : (slot (pushed q v) (q.dequeue_pos + size q)).value = some v := by
      rw [slot_pushed_self (by rw [hde2]) hltE]
    have hcong : ∀ i ∈ List.range (size q),
        (slot (pushed q v) (q.dequeue_pos + i)).value =
        (fun i => (slot q (q.dequeue_pos + i)).value) i := by
      intro i hi
      rw [List.mem_range] at hi
      have hne : (q.dequeue_pos + i) &&& q.mask ≠ q.enqueue_pos &&& q.mask := by
        refine slot_index_ne hm ?_ ?_
        · unfold size at hi
          omega
        · unfold size at hi
          omega
      rw [slot_pushed_of_ne (Ne.symm hne)]
    unfold items
    simp only [hszq', pushed_dequeue]
    rw [List.range_succ, List.filterMap_append, List.filterMap_congr hcong,
      List.filterMap_cons]
    simp only [hlast]
    rfl

theorem items_nil_iff {T : Type} {k : Nat} {q : LockFreeQueue T}
    (hWF : WFk k q) : items q = [] ↔ size q = 0 := by
  constructor
  · intro hnil
    by_contra hsz
    obtain ⟨v, _, _, _, hitems⟩ := pop_cons hWF (by omega)
    rw [hnil] at hitems
    exact List.noConfusion hitems
  · intro hsz
    unfold items
    rw [hsz]
    rfl

end LockFreeQueue

/-! The power-of-two test `capacity & (capacity - 1) == 0` used by
`with_capacity`. -/

theorem land_eq_zero_iff {a b : Nat} :
    a &&& b = 0 ↔ ∀ i, ¬(a.testBit i = true ∧ b.testBit i = true) := by
  constructor
  · intro h i hi
    have ht : (a &&& b).testBit i = true := by
      rw [Nat.testBit_and, hi.1, hi.2]
      rfl
    rw [h, Nat.zero_testBit] at ht
    exact Bool.noConfusion ht
  · intro h
    refine Nat.eq_of_testBit_eq fun i => ?_
    rw [Nat.testBit_and, Nat.zero_testBit]
    rcases hb : b.testBit i with _ | _
    · rw [Bool.and_false]
    · rcases ha : a.testBit i with _ | _
      · rw [Bool.false_and]
      · exact absurd ⟨ha, hb⟩ (h i)

theorem pow_two_of_and_pred_eq_zero :
    ∀ n, 1 ≤ n → n &&& (n - 1) = 0 → ∃ j, n = 2 ^ j := by
  intro n
  induction n using Nat.strong_induction_on with
  | _ n ih =>
    intro h1 h
    rcases Nat.lt_or_ge n 2 with h2 | h2
    · exact ⟨0, by omega⟩
    rcases Nat.even_or_odd n with ⟨m, hm⟩ | ⟨m, hm⟩
    · -- n = 2 * m : the test reduces to the test for m
      have hm1 : 1 ≤ m := by omega
      have hsub : m &&& (m - 1) = 0 := by
        rw [land_eq_zero_iff]
        intro i hi
        refine (land_eq_zero_iff.1 h) (i + 1) ⟨?_, ?_⟩
        · rw [Nat.testBit_succ]
          have : n / 2 = m := by omega
          rw [this]
          exact hi.1
        · rw [Nat.testBit_succ]
          have : (n - 1) / 2 = m - 1 := by omega
          rw [this]
          exact hi.2
      obtain ⟨j, hj⟩ := ih m (by omega) hm1 hsub
      exact ⟨j + 1, by rw [Nat.pow_succ]; omega⟩
    · -- n odd and ≥ 3 : n and n - 1 share a high bit, contradiction
      exfalso
      have hm1 : 1 ≤ m := by omega
      obtain ⟨i, hi⟩ := Nat.ne_zero_implies_bit_true (x := m) (by omega)
      refine (land_eq_zero_iff.1 h) (i + 1) ⟨?_, ?_⟩
      · rw [Nat.testBit_succ]
        have : n / 2 = m := by omega
        rw [this]
        exact hi
      · rw [Nat.testBit_succ]
        have : (n - 1) / 2 = m := by omega
        rw [this]
        exact hi

/-- Claim C5: `push` on a full well-formed queue fails, returns the same
value, and leaves the queue completely unchanged; after any `pop` from that
full queue, retrying the same `push` succeeds. -/
theorem claim_C5 (T : Type) (q : LockFreeQueue T) (v : T)
    (hWF : LockFreeQueue.WF q) (hfull : LockFreeQueue.size q = q.mask + 1) :
    LockFreeQueue.push q v = some (Except.error v, q) ∧
    ∀ x q', LockFreeQueue.pop q = some (x, q') →
      ∃ q'', LockFreeQueue.push q' v = some (Except.ok (), q'') := by
  obtain ⟨k, hk⟩ := hWF
  refine ⟨LockFreeQueue.push_full hk hfull v, ?_⟩
  intro x q' hpop
  have hsz : 0 < LockFreeQueue.size q := by
    have := hk.2.1
    have := Nat.two_pow_pos k
    omega
  obtain ⟨w, _, hpop', hWF', _⟩ := LockFreeQueue.pop_cons hk hsz
  rw [hpop'] at hpop
  obtain ⟨-, hq'⟩ := Prod.mk.inj (Option.some.inj hpop)
  subst hq'
  have hszp : LockFreeQueue.size (LockFreeQueue.popped q) <
      (LockFreeQueue.popped q).mask + 1 := by
    rw [LockFreeQueue.size_popped, LockFreeQueue.popped_mask]
    omega
  exact ⟨_, (LockFreeQueue.push_ok hWF' hszp v).1⟩

/-- Witness for C5 at a concrete full capacity-2 queue. -/
theorem claim_C5_witness :
    LockFreeQueue.push wqFull 30 = some (Except.error 30, wqFull) ∧
    ∀ x q', LockFreeQueue.pop wqFull = some (x, q') →
      ∃ q'', LockFreeQueue.push q' 30 = some (Except.ok (), q'') :=
  claim_C5 Nat wqFull 30 ⟨1, by decide⟩ (by decide)

/-- Claim C6: on a well-formed queue, `pop` reports `none` exactly when the
queue holds no items, and otherwise removes and returns the oldest item;
and the capacity-2 scenario push 1, push 2, push 3, pop, pop, pop yields
Ok, Ok, Full 3, Some 1, Some 2, None in that order. -/
theorem claim_C6 (T : Type) (q : LockFreeQueue T) (hWF : LockFreeQueue.WF q) :
    ((LockFreeQueue.pop q).map Prod.fst = some none ↔
      LockFreeQueue.items q = []) ∧
    (∀ v rest, LockFreeQueue.items q = v :: rest →
      ∃ q', LockFreeQueue.pop q = some (some v, q') ∧
        LockFreeQueue.items q' = rest) ∧
    (runQueue [QOp.push 1, QOp.push 2, QOp.push 3, QOp.pop, QOp.pop, QOp.pop]
        (LockFreeQueue.with_capacity Nat 2)).map Prod.fst =
      some [Sum.inl (Except.ok ()), Sum.inl (Except.ok ()),
        Sum.inl (Except.error 3), Sum.inr (some 1), Sum.inr (some 2),
        Sum.inr none] := by
  obtain ⟨k, hk⟩ := hWF
  refine ⟨?_, ?_, by rfl⟩
  · constructor
    · intro hmap
      rw [LockFreeQueue.items_nil_iff hk]
      by_contra hsz
      obtain ⟨w, _, hpop', _, _⟩ := LockFreeQueue.pop_cons hk (by omega)
      rw [hpop'] at hmap
      simp at hmap
    · intro hnil
      have hsz := (LockFreeQueue.items_nil_iff hk).1 hnil
      rw [LockFreeQueue.pop_empty hk hsz]
      rfl
  · intro v rest hitems
    have hsz : 0 < LockFreeQueue.size q := by
      by_contra hsz
      have : LockFreeQueue.size q = 0 := by omega
      rw [← LockFreeQueue.items_nil_iff hk] at this
      rw [this] at hitems
      exact List.noConfusion hitems
    obtain ⟨w, _, hpop', _, hit⟩ := LockFreeQueue.pop_cons hk hsz
    rw [hitems] at hit
    obtain ⟨hw, hrest⟩ := List.cons.inj hit
    exact ⟨_, by rw [hpop', hw], hrest.symm⟩

/-- Witness for C6 at a concrete well-formed queue. -/
theorem claim_C6_witness :
    (((LockFreeQueue.pop wqFull).map Prod.fst = some none ↔
      LockFreeQueue.items wqFull = []) ∧
    (∀ v rest, LockFreeQueue.items wqFull = v :: rest →
      ∃ q', LockFreeQueue.pop wqFull = some (some v, q') ∧
        LockFreeQueue.items q' = rest) ∧
    (runQueue [QOp.push 1, QOp.push 2, QOp.push 3, QOp.pop, QOp.pop, QOp.pop]
        (LockFreeQueue.with_capacity Nat 2)).map Prod.fst =
      some [Sum.inl (Except.ok ()), Sum.inl (Except.ok ()),
        Sum.inl (Except.error 3), Sum.inr (some 1), Sum.inr (some 2),
        Sum.inr none]) :=
  claim_C6 Nat wqFull ⟨1, by decide⟩

/-- Claim C7: for every requested capacity, `with_capacity` produces a slot
array whose length (the effective capacity, `mask + 1`) is the least power
of two that is at least `max 2 c`. -/
theorem claim_C7 (T : Type) (c : Nat) :
    (LockFreeQueue.with_capacity T c).buffer.length =
      (LockFreeQueue.with_capacity T c).mask + 1 ∧
    IsLeast {m : Nat | (∃ j, m = 2 ^ j) ∧ max 2 c ≤ m}
      ((LockFreeQueue.with_capacity T c).mask + 1) := by
  have hblen : ∀ n, ((List.range n).map
      (fun i => ({ sequence := i, value := none } : Node T))).length = n := by
    intro n
    rw [List.length_map, List.length_range]
  by_cases h2 : c < 2
  · -- rounded up to the minimum capacity 2
    have hcond : (decide (c < 2) || (c &&& (c - 1)) != 0) = true := by
      simp [h2]
    have hmask : (LockFreeQueue.with_capacity T c).mask = 2 - 1 := by
      unfold LockFreeQueue.with_capacity
      simp only [hcond, if_true, if_pos h2]
    have hlen : (LockFreeQueue.with_capacity T c).buffer.length = 2 := by
      unfold LockFreeQueue.with_capacity
      simp only [hcond, if_true, if_pos h2]
      exact hblen 2
    rw [hmask, hlen]
    refine ⟨rfl, ⟨⟨1, rfl⟩, by omega⟩, ?_⟩
    intro m hm
    have := hm.2
    omega
  · by_cases hpow : c &&& (c - 1) = 0
    · -- already a power of two, kept as is
      have hcond : (decide (c < 2) || (c &&& (c - 1)) != 0) = false := by
        simp [h2, hpow]
      have hmask : (LockFreeQueue.with_capacity T c).mask = c - 1 := by
        unfold LockFreeQueue.with_capacity
        simp only [hcond, Bool.false_eq_true, if_false]
      have hlen : (LockFreeQueue.with_capacity T c).buffer.length = c := by
        unfold LockFreeQueue.with_capacity
        simp only [hcond, Bool.false_eq_true, if_false]
        exact hblen c
      rw [hmask, hlen]
      have hc1 : c - 1 + 1 = c := by omega
      rw [hc1]
      refine ⟨rfl, ⟨pow_two_of_and_pred_eq_zero c (by omega) hpow, by omega⟩, ?_⟩
      intro m hm
      have := hm.2
      omega
    · -- rounded up to the next power of two
      have hcond : (decide (c < 2) || (c &&& (c - 1)) != 0) = true := by
        simp [hpow]
      have hmask : (LockFreeQueue.with_capacity T c).mask =
          next_power_of_two c - 1 := by
        unfold LockFreeQueue.with_capacity
        simp only [hcond, if_true, if_neg h2]
      have hlen : (LockFreeQueue.with_capacity T c).buffer.length =
          next_power_of_two c := by
        unfold LockFreeQueue.with_capacity
        simp only [hcond, if_true, if_neg h2]
        exact hblen _
      have hnp : 1 ≤ next_power_of_two c := by
        unfold next_power_of_two
        exact Nat.one_le_two_pow
      have hge : c ≤ next_power_of_two c := Nat.le_pow_clog (by omega) c
      rw [hmask, hlen]
      have hc1 : next_power_of_two c - 1 + 1 = next_power_of_two c := by omega
      rw [hc1]
      refine ⟨rfl, ⟨⟨Nat.clog 2 c, rfl⟩, by omega⟩, ?_⟩
      intro m hm
      obtain ⟨⟨j, hj⟩, hmax⟩ := hm
      have hcm : c ≤ m := by omega
      rw [hj] at hcm ⊢
      exact Nat.pow_le_pow_right (by omega)
        ((Nat.le_pow_iff_clog_le (by omega)).1 hcm)

/-! Channel lemmas. -/

namespace Canal

theorem D_neg : DISCONNECTED < -1 - FUDGE := by norm_num [DISCONNECTED, FUDGE]

theorem DF_neg : DISCONNECTED + FUDGE < -1 - FUDGE := by
  norm_num [DISCONNECTED, FUDGE]

theorem F_pos : 0 < FUDGE := by norm_num [FUDGE]

theorem MS_pos : 0 < MAX_STEALS := by norm_num [MAX_STEALS]

/-- On a channel whose counter holds the sentinel, `try_recv` never reports
`Empty`, and the counter still holds the sentinel on return. -/
theorem try_recv_disc {T : Type} {c : Canal T} (hcnt : c.cnt = DISCONNECTED) :
    ∀ r c', try_recv c = some (r, c') →
      r ≠ Except.error Failure.Empty ∧ c'.cnt = DISCONNECTED := by
  intro r c' heq
  rcases hpop : LockFreeQueue.pop c.queue with _ | ⟨vo, q1⟩
  · simp only [try_recv, hpop] at heq
    exact Option.noConfusion heq
  rcases vo with _ | data
  · -- first pop empty: the counter is the sentinel, so take the final pop
    simp only [try_recv, hpop] at heq
    rw [if_neg (by simp [hcnt])] at heq
    rcases hpop2 : LockFreeQueue.pop q1 with _ | ⟨vo2, q2⟩
    · rw [hpop2] at heq
      exact Option.noConfusion heq
    rcases vo2 with _ | t
    · rw [hpop2] at heq
      obtain ⟨hr, hc'⟩ := Prod.mk.inj (Option.some.inj heq)
      subst hc'
      exact ⟨by rw [← hr]; intro h; exact Failure.noConfusion (Except.error.inj h), hcnt⟩
    · rw [hpop2] at heq
      obtain ⟨hr, hc'⟩ := Prod.mk.inj (Option.some.inj heq)
      subst hc'
      exact ⟨by rw [← hr]; intro h; exact Except.noConfusion h, hcnt⟩
  · -- pop succeeded: result is Ok either way
    simp only [try_recv, hpop, hcnt, if_true] at heq
    split at heq
    · split at heq
      · obtain ⟨hr, hc'⟩ := Prod.mk.inj (Option.some.inj heq)
        subst hc'
        exact ⟨by rw [← hr]; intro h; exact Except.noConfusion h, rfl⟩
      · exact Option.noConfusion heq
    · obtain ⟨hr, hc'⟩ := Prod.mk.inj (Option.some.inj heq)
      subst hc'
      exact ⟨by rw [← hr]; intro h; exact Except.noConfusion h, rfl⟩

/-- On a channel whose counter holds the sentinel, a returning `recv`
forwards the `try_recv` result, and the counter still holds the sentinel. -/
theorem recv_disc {T : Type} {c : Canal T} (hcnt : c.cnt = DISCONNECTED) :
    ∀ r c', recv c = some (r, c') → c'.cnt = DISCONNECTED := by
  intro r c' heq
  rcases htr : try_recv c with _ | ⟨r1, c1⟩
  · simp only [recv, htr] at heq
    exact Option.noConfusion heq
  obtain ⟨hne, hc1⟩ := try_recv_disc hcnt r1 c1 htr
  rcases r1 with f | v
  · rcases f with _ | _
    · exact absurd rfl hne
    · simp only [recv, htr] at heq
      obtain ⟨-, hc'⟩ := Prod.mk.inj (Option.some.inj heq)
      subst hc'
      exact hc1
  · simp only [recv, htr] at heq
    obtain ⟨-, hc'⟩ := Prod.mk.inj (Option.some.inj heq)
    subst hc'
    exact hc1

end Canal

/-- Claim C4: disconnection is terminal.  From any channel state whose
counter holds the disconnected sentinel, every operation that returns
leaves the counter at the sentinel; no operation re-opens the channel. -/
theorem claim_C4 (T : Type) (c : Canal T) (t : T)
    (hcnt : c.cnt = DISCONNECTED) :
    (∀ r c', Canal.send c t = some (r, c') → c'.cnt = DISCONNECTED) ∧
    (∀ r c', Canal.recv c = some (r, c') → c'.cnt = DISCONNECTED) ∧
    (∀ r c', Canal.try_recv c = some (r, c') → c'.cnt = DISCONNECTED) ∧
    (Canal.clone_chan c).cnt = DISCONNECTED ∧
    (Canal.clone_port c).cnt = DISCONNECTED ∧
    (∀ c', Canal.drop_chan c = some c' → c'.cnt = DISCONNECTED) ∧
    (∀ c', Canal.drop_port c = some c' → c'.cnt = DISCONNECTED) := by
  have hF := Canal.F_pos
  have hD := Canal.D_neg
  refine ⟨?_, ?_, ?_, hcnt, hcnt, ?_, ?_⟩
  · -- send fails fast on a disconnected channel
    intro r c' heq
    by_cases hp : c.ports = 0
    · simp only [Canal.send, if_pos hp] at heq
      obtain ⟨-, hc'⟩ := Prod.mk.inj (Option.some.inj heq)
      subst hc'
      exact hcnt
    · simp only [Canal.send, if_neg hp] at heq
      rw [if_pos (by rw [hcnt]; omega)] at heq
      obtain ⟨-, hc'⟩ := Prod.mk.inj (Option.some.inj heq)
      subst hc'
      exact hcnt
  · exact Canal.recv_disc hcnt
  · intro r c' heq
    exact (Canal.try_recv_disc hcnt r c' heq).2
  · -- drop_chan
    intro c' heq
    by_cases h1 : c.channels = 1
    · simp only [Canal.drop_chan, if_pos h1] at heq
      rw [if_neg (by show ¬ (c.cnt = -1); rw [hcnt]; omega)] at heq
      rw [if_pos (by show c.cnt = DISCONNECTED; exact hcnt)] at heq
      exact (Option.some.inj heq) ▸ rfl
    · simp only [Canal.drop_chan, if_neg h1] at heq
      by_cases h2 : c.channels > 1
      · rw [if_pos h2] at heq
        exact (Option.some.inj heq) ▸ hcnt
      · rw [if_neg h2] at heq
        exact Option.noConfusion heq
  · -- drop_port: the CAS loop exits on its first iteration
    intro c' heq
    by_cases h1 : c.ports = 1
    · simp only [Canal.drop_port, if_pos h1] at heq
      by_cases h2 : c.cnt = c.steals
      · rw [show Canal.dropPortLoop 3 c.steals c.cnt c.queue =
            some (DISCONNECTED, c.queue) from by
          simp only [Canal.dropPortLoop, if_pos h2]
          rw [if_neg (by intro h; exact h.2 h2)]] at heq
        exact (Option.some.inj heq) ▸ rfl
      · rw [show Canal.dropPortLoop 3 c.steals c.cnt c.queue =
            some (c.cnt, c.queue) from by
          simp only [Canal.dropPortLoop, if_neg h2]
          rw [if_neg (by intro h; exact h.1 hcnt)]] at heq
        exact (Option.some.inj heq) ▸ hcnt
    · simp only [Canal.drop_port, if_neg h1] at heq
      by_cases h2 : c.ports > 1
      · rw [if_pos h2] at heq
        exact (Option.some.inj heq) ▸ hcnt
      · rw [if_neg h2] at heq
        exact Option.noConfusion heq

/-- Witness for C4 at a concrete disconnected channel. -/
theorem claim_C4_witness :
    (∀ r c', Canal.send wcDisc 5 = some (r, c') → c'.cnt = DISCONNECTED) ∧
    (∀ r c', Canal.recv wcDisc = some (r, c') → c'.cnt = DISCONNECTED) ∧
    (∀ r c', Canal.try_recv wcDisc = some (r, c') → c'.cnt = DISCONNECTED) ∧
    (Canal.clone_chan wcDisc).cnt = DISCONNECTED ∧
    (Canal.clone_port wcDisc).cnt = DISCONNECTED ∧
    (∀ c', Canal.drop_chan wcDisc = some c' → c'.cnt = DISCONNECTED) ∧
    (∀ c', Canal.drop_port wcDisc = some c' → c'.cnt = DISCONNECTED) :=
  claim_C4 Nat wcDisc 5 rfl

/-- A failed `push` hands back the pushed value and leaves the queue
untouched (true of every state, well formed or not). -/
theorem push_err_inv {T : Type} {q q1 : LockFreeQueue T} {t w : T}
    (h : LockFreeQueue.push q t = some (Except.error w, q1)) :
    w = t ∧ q1 = q := by
  simp only [LockFreeQueue.push] at h
  split at h
  · obtain ⟨h1, -⟩ := Prod.mk.inj (Option.some.inj h)
    exact Except.noConfusion h1
  · split at h
    · obtain ⟨h1, h2⟩ := Prod.mk.inj (Option.some.inj h)
      exact ⟨(Except.error.inj h1).symm, h2.symm⟩
    · exact Option.noConfusion h

/-- Claim C8: `send` on a channel with zero live receiver handles fails
immediately, hands back the original value, and changes nothing. -/
theorem claim_C8 (T : Type) (c : Canal T) (t : T) (hp : c.ports = 0) :
    Canal.send c t = some (Except.error t, c) := by
  simp only [Canal.send, if_pos hp]

/-- Witness for C8 at a concrete receiverless channel. -/
theorem claim_C8_witness :
    Canal.send wcPorts0 5 = some (Except.error 5, wcPorts0) :=
  claim_C8 Nat wcPorts0 5 rfl

/-- Claim C10: `send` is atomic on failure.  Whenever it returns an error
(no receivers, disconnected counter, or full queue), the returned value is
the argument and the entire channel state is exactly as before the call. -/
theorem claim_C10 (T : Type) (c : Canal T) (t v : T) (c' : Canal T)
    (heq : Canal.send c t = some (Except.error v, c')) : v = t ∧ c' = c := by
  by_cases hp : c.ports = 0
  · simp only [Canal.send, if_pos hp] at heq
    obtain ⟨h1, h2⟩ := Prod.mk.inj (Option.some.inj heq)
    exact ⟨(Except.error.inj h1).symm, h2.symm⟩
  · simp only [Canal.send, if_neg hp] at heq
    by_cases hd : c.cnt < DISCONNECTED + FUDGE
    · rw [if_pos hd] at heq
      obtain ⟨h1, h2⟩ := Prod.mk.inj (Option.some.inj heq)
      exact ⟨(Except.error.inj h1).symm, h2.symm⟩
    · rw [if_neg hd] at heq
      rcases hpush : LockFreeQueue.push c.queue t with _ | ⟨rp, q1⟩
      · simp only [hpush] at heq
        exact Option.noConfusion heq
      rcases rp with w | u
      · -- the queue was full: push handed the value back unchanged
        obtain ⟨hw, hq⟩ := push_err_inv hpush
        simp only [hpush] at heq
        subst hq
        obtain ⟨h1, h2⟩ := Prod.mk.inj (Option.some.inj heq)
        refine ⟨?_, h2.symm⟩
        rw [← Except.error.inj h1, hw]
      · -- the push succeeded: both the wake branch and the plain branch
        -- report Ok (the disconnected-drain branch repeats the counter
        -- check already known false here)
        simp only [hpush] at heq
        split at heq
        · obtain ⟨h1, -⟩ := Prod.mk.inj (Option.some.inj heq)
          exact Except.noConfusion h1
        · obtain ⟨h1, -⟩ := Prod.mk.inj (Option.some.inj heq)
          exact Except.noConfusion h1

/-- Witness for C10 at a concrete receiverless channel. -/
theorem claim_C10_witness : (5 : Nat) = 5 ∧ wcPorts0 = wcPorts0 :=
  claim_C10 Nat wcPorts0 5 5 wcPorts0 rfl

/-- Counterexample to C3 as stated: at `wcBand` the first pop yields
nothing and the counter lies inside the documented disconnected band
(`DISCONNECTED < cnt ≤ DISCONNECTED + FUDGE`), yet `try_recv` reports
`Empty` instead of performing the final pop and reporting `Disconnected`:
the code compares `cnt` against the exact sentinel, not the band. -/
theorem claim_C3_counterexample :
    (LockFreeQueue.pop wcBand.queue).map Prod.fst = some none ∧
    DISCONNECTED < wcBand.cnt ∧ wcBand.cnt ≤ DISCONNECTED + FUDGE ∧
    Canal.try_recv wcBand = some (Except.error Failure.Empty, wcBand) := by
  refine ⟨rfl, by decide, by decide, rfl⟩

/-- Claim C3 (amended): when the first pop of `try_recv` yields nothing,
the result is `Empty` if the counter is not exactly the `DISCONNECTED`
sentinel; if it is the sentinel, exactly one further pop attempt is made,
whose item is returned if present, else `Disconnected`. -/
theorem claim_C3 (T : Type) (c : Canal T) (q1 : LockFreeQueue T)
    (hpop : LockFreeQueue.pop c.queue = some (none, q1)) :
    (c.cnt ≠ DISCONNECTED →
      Canal.try_recv c =
        some (Except.error Failure.Empty, { c with queue := q1 })) ∧
    (c.cnt = DISCONNECTED →
      (∀ t q2, LockFreeQueue.pop q1 = some (some t, q2) →
        Canal.try_recv c = some (Except.ok t, { c with queue := q2 })) ∧
      (∀ q2, LockFreeQueue.pop q1 = some (none, q2) →
        Canal.try_recv c =
          some (Except.error Failure.Disconnected, { c with queue := q2 }))) := by
  constructor
  · intro hne
    simp only [Canal.try_recv, hpop]
    rw [if_pos hne]
  · intro hd
    constructor
    · intro t q2 hpop2
      simp only [Canal.try_recv, hpop, hpop2]
      rw [if_neg (by simp [hd])]
    · intro q2 hpop2
      simp only [Canal.try_recv, hpop, hpop2]
      rw [if_neg (by simp [hd])]

/-- Witness for the amended C3 at a concrete empty disconnected channel. -/
theorem claim_C3_witness :
    (wcDiscEmpty.cnt ≠ DISCONNECTED →
      Canal.try_recv wcDiscEmpty =
        some (Except.error Failure.Empty,
          { wcDiscEmpty with queue := wcDiscEmpty.queue })) ∧
    (wcDiscEmpty.cnt = DISCONNECTED →
      (∀ t q2, LockFreeQueue.pop wcDiscEmpty.queue = some (some t, q2) →
        Canal.try_recv wcDiscEmpty =
          some (Except.ok t, { wcDiscEmpty with queue := q2 })) ∧
      (∀ q2, LockFreeQueue.pop wcDiscEmpty.queue = some (none, q2) →
        Canal.try_recv wcDiscEmpty =
          some (Except.error Failure.Disconnected,
            { wcDiscEmpty with queue := q2 }))) :=
  claim_C3 Nat wcDiscEmpty wcDiscEmpty.queue rfl

namespace Canal

/-- Classification of `try_recv` on a well-formed channel: it either pops
an item, reports `Disconnected` leaving the state untouched, or reports
`Empty` leaving the state untouched — and the latter only on an empty,
non-disconnected queue whose counter equals the outstanding steal
credits. -/
theorem try_recv_cases {T : Type} {c : Canal T} (hWF : WF c) :
    (∃ v c', try_recv c = some (Except.ok v, c')) ∨
    try_recv c = some (Except.error Failure.Disconnected, c) ∨
    (try_recv c = some (Except.error Failure.Empty, c) ∧
      c.cnt = c.steals ∧ LockFreeQueue.size c.queue = 0) := by
  obtain ⟨⟨k, hk⟩, hst, hcnt⟩ := hWF
  have hD := D_neg
  have hF := F_pos
  by_cases hsz : LockFreeQueue.size c.queue = 0
  · have hpop := LockFreeQueue.pop_empty hk hsz
    rcases hcnt with hcnt | hcnt
    · -- disconnected and empty: the final pop also fails
      right
      left
      simp only [try_recv, hpop]
      rw [if_neg (by simp [hcnt])]
    · -- open and empty: a genuine Empty
      right
      right
      have hcs : c.cnt = c.steals := by
        rw [hcnt, hsz]
        simp
      refine ⟨?_, hcs, hsz⟩
      simp only [try_recv, hpop]
      rw [if_pos (by intro h; rw [hcs] at h; omega)]
  · -- at least one item: the first pop succeeds
    left
    obtain ⟨v, hv, hpop, _, _⟩ := LockFreeQueue.pop_cons hk (by omega)
    simp only [try_recv, hpop]
    by_cases hms : c.steals > MAX_STEALS
    · rw [if_pos hms]
      rcases hcnt with hcnt | hcnt
      · rw [if_pos hcnt]
        rw [if_pos (by show c.steals ≥ 0; omega)]
        exact ⟨v, _, rfl⟩
      · have h0 : (0 : Int) ≤ (LockFreeQueue.size c.queue : Int) :=
          Int.natCast_nonneg _
        have hne : ¬ (c.cnt = DISCONNECTED) := by
          rw [hcnt]
          intro h
          omega
        have hb : ¬ ((0 : Int) = DISCONNECTED) := by omega
        have hge : c.steals - min c.cnt c.steals ≥ 0 := by
          have := min_le_right c.cnt c.steals
          omega
        rw [if_neg hne]
        simp only [bump]
        rw [if_neg hb, if_pos hge]
        exact ⟨v, _, rfl⟩
    · rw [if_neg hms]
      exact ⟨v, _, rfl⟩

end Canal

/-- Claim C2: on a well-formed channel, a `recv` that returns yields either
a received item or `Disconnected`; it never hands `Empty` to its caller
(when the queue is empty and the channel open, `recv` blocks instead). -/
theorem claim_C2 (T : Type) (c : Canal T) (r : Except Failure T)
    (c' : Canal T) (hWF : Canal.WF c)
    (heq : Canal.recv c = some (r, c')) :
    (∃ v, r = Except.ok v) ∨ r = Except.error Failure.Disconnected := by
  rcases Canal.try_recv_cases hWF with ⟨v, c1, htr⟩ | htr | ⟨htr, hcs, hsz⟩
  · left
    simp only [Canal.recv, htr] at heq
    obtain ⟨h1, -⟩ := Prod.mk.inj (Option.some.inj heq)
    exact ⟨v, h1.symm⟩
  · right
    simp only [Canal.recv, htr] at heq
    obtain ⟨h1, -⟩ := Prod.mk.inj (Option.some.inj heq)
    exact h1.symm
  · -- empty open channel: decrement registers the block and recv waits
    exfalso
    obtain ⟨⟨k, hk⟩, hst, -⟩ := hWF
    have hD := Canal.D_neg
    have hF := Canal.F_pos
    have hdec : Canal.decrement c = some (true,
        { c with steals := 0, cnt := c.cnt - (1 + c.steals),
                 should_block := true }) := by
      simp only [Canal.decrement]
      rw [if_neg (show ¬ (c.cnt = DISCONNECTED) by intro h; rw [hcs] at h; omega)]
      rw [if_pos (show c.cnt > -1 - FUDGE by rw [hcs]; omega)]
      rw [if_pos (show c.cnt - c.steals ≤ 0 by rw [hcs]; omega)]
    simp only [Canal.recv, htr, hdec] at heq
    exact Option.noConfusion heq

/-- Witness for C2 at a concrete one-item channel. -/
theorem claim_C2_witness :
    (∃ v, (Except.ok 7 : Except Failure Nat) = Except.ok v) ∨
    (Except.ok 7 : Except Failure Nat) = Except.error Failure.Disconnected :=
  claim_C2 Nat wcOpen (Except.ok 7)
    { queue := { buffer := [⟨2, none⟩, ⟨1, none⟩], mask := 1,
                 enqueue_pos := 1, dequeue_pos := 1 }
      cnt := 1
      steals := 1
      should_block := false
      channels := 1
      ports := 1
      sender_drain := 0 }
    ⟨⟨1, by decide⟩, by decide, by decide⟩ rfl

namespace Canal

/-- `try_recv` on an empty disconnected channel: both pops fail, result is
`Disconnected`, state untouched. -/
theorem try_recv_disc_empty {T : Type} {k : Nat} {c : Canal T}
    (hk : LockFreeQueue.WFk k c.queue) (hcnt : c.cnt = DISCONNECTED)
    (hsz : LockFreeQueue.size c.queue = 0) :
    try_recv c = some (Except.error Failure.Disconnected, c) := by
  have hpop := LockFreeQueue.pop_empty hk hsz
  simp only [try_recv, hpop]
  rw [if_neg (by simp [hcnt])]

/-- `recv` on an empty disconnected channel returns `Disconnected` and
leaves the state untouched. -/
theorem recv_disc_empty {T : Type} {k : Nat} {c : Canal T}
    (hk : LockFreeQueue.WFk k c.queue) (hcnt : c.cnt = DISCONNECTED)
    (hitems : LockFreeQueue.items c.queue = []) :
    recv c = some (Except.error Failure.Disconnected, c) := by
  have hsz := (LockFreeQueue.items_nil_iff hk).1 hitems
  have htr := try_recv_disc_empty hk hcnt hsz
  simp only [recv, htr]

/-- `recv` on a disconnected channel still holding items pops the oldest
item; the remaining state is again a well-formed disconnected channel with
the tail of the items. -/
theorem recv_disc_cons {T : Type} {k : Nat} {c : Canal T} {v : T}
    {rest : List T} (hk : LockFreeQueue.WFk k c.queue)
    (hcnt : c.cnt = DISCONNECTED) (hst : 0 ≤ c.steals)
    (hitems : LockFreeQueue.items c.queue = v :: rest) :
    ∃ c', recv c = some (Except.ok v, c') ∧
      LockFreeQueue.WFk k c'.queue ∧ c'.cnt = DISCONNECTED ∧
      0 ≤ c'.steals ∧ LockFreeQueue.items c'.queue = rest := by
  have hMS := MS_pos
  have hsz : 0 < LockFreeQueue.size c.queue := by
    by_contra h
    have h0 : LockFreeQueue.size c.queue = 0 := by omega
    rw [← LockFreeQueue.items_nil_iff hk] at h0
    rw [h0] at hitems
    exact List.noConfusion hitems
  obtain ⟨w, hw, hpop, hWF', hit⟩ := LockFreeQueue.pop_cons hk hsz
  rw [hitems] at hit
  obtain ⟨hwv, hrest⟩ := List.cons.inj hit
  subst hwv
  have htr : ∃ c', try_recv c = some (Except.ok v, c') ∧
      c'.queue = LockFreeQueue.popped c.queue ∧ c'.cnt = DISCONNECTED ∧
      c'.steals = c.steals + 1 := by
    simp only [try_recv, hpop]
    by_cases hms : c.steals > MAX_STEALS
    · rw [if_pos hms, if_pos hcnt, if_pos (show c.steals ≥ 0 by omega)]
      exact ⟨_, rfl, rfl, rfl, rfl⟩
    · rw [if_neg hms]
      exact ⟨_, rfl, rfl, hcnt, rfl⟩
  obtain ⟨c', htr, hq, hcd, hsteals⟩ := htr
  refine ⟨c', ?_, ?_, hcd, ?_, ?_⟩
  · simp only [recv, htr]
  · rw [hq]
    exact hWF'
  · rw [hsteals]
    omega
  · rw [hq]
    exact hrest.symm

/-- `drop_chan` on the last sender of a channel whose counter is the
sentinel or non-negative: the counter is swapped to the sentinel and only
the refcount changes otherwise. -/
theorem drop_chan_spec {T : Type} {c : Canal T} (hch : c.channels = 1)
    (hcnt : c.cnt = DISCONNECTED ∨ 0 ≤ c.cnt) :
    ∃ c1, drop_chan c = some c1 ∧ c1.cnt = DISCONNECTED ∧
      c1.queue = c.queue ∧ c1.steals = c.steals ∧ c1.channels = 0 ∧
      c1.ports = c.ports := by
  have hD := D_neg
  have hF := F_pos
  have hne1 : ¬ (c.cnt = -1) := by
    rcases hcnt with h | h
    · rw [h]
      omega
    · omega
  simp only [drop_chan]
  rw [if_pos hch, if_neg hne1]
  by_cases hd : c.cnt = DISCONNECTED
  · rw [if_pos hd]
    refine ⟨_, rfl, rfl, rfl, rfl, ?_, rfl⟩
    show c.channels - 1 = 0
    omega
  · rw [if_neg hd, if_pos (by
      rcases hcnt with h | h
      · exact absurd h hd
      · exact h)]
    refine ⟨_, rfl, rfl, rfl, rfl, ?_, rfl⟩
    show c.channels - 1 = 0
    omega

end Canal

/-- One unfolding step of `recvN`. -/
theorem recvN_succ {T : Type} (n : Nat) (c : Canal T) :
    recvN (n + 1) c =
      match Canal.recv c with
      | none => none
      | some (r, c1) =>
        match recvN n c1 with
        | none => none
        | some (rs, c2) => some (r :: rs, c2) := rfl

/-- On a well-formed disconnected channel holding the items `l`, `l.length + 1`
successive `recv` calls return exactly the items of `l` in order followed by
`Disconnected`. -/
theorem recvN_disc {T : Type} {k : Nat} :
    ∀ (l : List T) (c : Canal T), LockFreeQueue.WFk k c.queue →
      c.cnt = DISCONNECTED → 0 ≤ c.steals →
      LockFreeQueue.items c.queue = l →
      ∃ c2, recvN (l.length + 1) c =
        some (l.map Except.ok ++ [Except.error Failure.Disconnected], c2) := by
  intro l
  induction l with
  | nil =>
    intro c hk hcnt hst hl
    refine ⟨c, ?_⟩
    have hr := Canal.recv_disc_empty hk hcnt hl
    simp only [List.length_nil, recvN, hr]
    rfl
  | cons v rest ih =>
    intro c hk hcnt hst hl
    obtain ⟨c', hr, hk', hcnt', hst', hrest⟩ :=
      Canal.recv_disc_cons hk hcnt hst hl
    obtain ⟨c2, hrec⟩ := ih c' hk' hcnt' hst' hrest
    refine ⟨c2, ?_⟩
    simp only [List.length_cons]
    rw [recvN_succ, hr]
    simp only [hrec, List.map_cons, List.cons_append]

/-- Claim C1: on a well-formed channel with one sender refcount, dropping
the sender disconnects the channel, and successive `recv` calls then return
every residual buffered item in order followed by `Disconnected` (with
`Disconnected` immediately when the queue was empty at the drop). -/
theorem claim_C1 (T : Type) (c : Canal T) (hWF : Canal.WF c)
    (hch : c.channels = 1) :
    ∃ c1 c2, Canal.drop_chan c = some c1 ∧
      recvN ((LockFreeQueue.items c.queue).length + 1) c1 =
        some ((LockFreeQueue.items c.queue).map Except.ok ++
          [Except.error Failure.Disconnected], c2) := by
  obtain ⟨⟨k, hk⟩, hst, hcnt⟩ := hWF
  have hcnt0 : c.cnt = DISCONNECTED ∨ 0 ≤ c.cnt := by
    rcases hcnt with h | h
    · exact Or.inl h
    · right
      rw [h]
      have := Int.natCast_nonneg (LockFreeQueue.size c.queue)
      omega
  obtain ⟨c1, hdc, h1, h2, h3, -, -⟩ := Canal.drop_chan_spec hch hcnt0
  obtain ⟨c2, hr⟩ := recvN_disc (LockFreeQueue.items c.queue) c1
    (by rw [h2]; exact hk) h1 (by rw [h3]; exact hst) (by rw [h2])
  exact ⟨c1, c2, hdc, hr⟩

/-- Witness for C1 at a concrete one-item channel. -/
theorem claim_C1_witness :
    ∃ c1 c2, Canal.drop_chan wcOpen = some c1 ∧
      recvN ((LockFreeQueue.items wcOpen.queue).length + 1) c1 =
        some ((LockFreeQueue.items wcOpen.queue).map Except.ok ++
          [Except.error Failure.Disconnected], c2) :=
  claim_C1 Nat wcOpen ⟨⟨1, by decide⟩, by decide, by decide⟩ rfl

namespace Canal

/-- Draining a well-formed queue of size `n` with `n` units of fuel pops
exactly its `n` items and ends on the empty queue. -/
theorem drainCount_spec {T : Type} {k : Nat} :
    ∀ (n : Nat) (q : LockFreeQueue T), LockFreeQueue.WFk k q →
      LockFreeQueue.size q = n →
      ∃ q', drainCount n q = some (n, q') ∧ LockFreeQueue.WFk k q' ∧
        LockFreeQueue.size q' = 0 := by
  intro n
  induction n with
  | zero =>
    intro q hk hsz
    have hpop := LockFreeQueue.pop_empty hk hsz
    refine ⟨q, ?_, hk, hsz⟩
    simp only [drainCount, hpop]
  | succ n ih =>
    intro q hk hsz
    obtain ⟨v, hv, hpop, hk', hit⟩ := LockFreeQueue.pop_cons hk (by omega)
    have hsz' : LockFreeQueue.size (LockFreeQueue.popped q) = n := by
      rw [LockFreeQueue.size_popped, hsz]
      omega
    obtain ⟨q', hd, hk'', hsz''⟩ := ih (LockFreeQueue.popped q) hk' hsz'
    refine ⟨q', ?_, hk'', hsz''⟩
    simp only [drainCount, hpop, hd]
    rfl

/-- One unfolding step of the `drop_port` CAS loop. -/
theorem dropPortLoop_succ {T : Type} (fuel : Nat) (steals cnt : Int)
    (q : LockFreeQueue T) :
    dropPortLoop (fuel + 1) steals cnt q =
      (if cnt ≠ DISCONNECTED ∧ cnt ≠ steals then
        match drainCount (LockFreeQueue.size q) q with
        | none => none
        | some (kk, q1) =>
          dropPortLoop fuel (steals + (kk : Int))
            (if cnt = steals then DISCONNECTED else cnt) q1
      else some (if cnt = steals then DISCONNECTED else cnt, q)) := rfl

/-- On a well-formed channel state, the `drop_port` CAS loop terminates
within its fuel and pins the counter at the sentinel. -/
theorem dropPortLoop_spec {T : Type} {k : Nat} {q : LockFreeQueue T}
    (hk : LockFreeQueue.WFk k q) (steals cnt : Int) (hst : 0 ≤ steals)
    (hcnt : cnt = DISCONNECTED ∨
      cnt = (LockFreeQueue.size q : Int) + steals) :
    ∃ q', dropPortLoop 3 steals cnt q = some (DISCONNECTED, q') := by
  have hD := D_neg
  have hF := F_pos
  rcases hcnt with hcnt | hcnt
  · -- already the sentinel: the loop condition fails immediately
    refine ⟨q, ?_⟩
    rw [show (3 : Nat) = 2 + 1 from rfl, dropPortLoop_succ]
    rw [if_neg (by intro h; exact h.1 hcnt)]
    by_cases hcs : cnt = steals
    · rw [if_pos hcs]
    · rw [if_neg hcs, hcnt]
  · by_cases hsz : LockFreeQueue.size q = 0
    · -- empty queue: the CAS succeeds at once
      have hcs : cnt = steals := by
        rw [hcnt, hsz]
        simp
      refine ⟨q, ?_⟩
      rw [show (3 : Nat) = 2 + 1 from rfl, dropPortLoop_succ]
      rw [if_neg (by intro h; exact h.2 hcs), if_pos hcs]
    · -- the CAS fails once, the queue is drained, then the CAS succeeds
      have h0 : (0 : Int) ≤ (LockFreeQueue.size q : Int) := Int.natCast_nonneg _
      have hszpos : (0 : Int) < (LockFreeQueue.size q : Int) := by
        exact_mod_cast Nat.pos_of_ne_zero hsz
      have hne1 : cnt ≠ DISCONNECTED := by
        rw [hcnt]
        intro h
        omega
      have hne2 : cnt ≠ steals := by
        rw [hcnt]
        intro h
        omega
      obtain ⟨q', hdrain, hk', hsz'⟩ :=
        drainCount_spec (LockFreeQueue.size q) q hk rfl
      refine ⟨q', ?_⟩
      rw [show (3 : Nat) = 2 + 1 from rfl, dropPortLoop_succ]
      rw [if_pos ⟨hne1, hne2⟩]
      simp only [hdrain]
      rw [if_neg hne2]
      rw [show (2 : Nat) = 1 + 1 from rfl, dropPortLoop_succ]
      have hcs2 : cnt = steals + (LockFreeQueue.size q : Int) := by
        rw [hcnt]
        ring
      rw [if_neg (by intro h; exact h.2 hcs2), if_pos hcs2]

/-- `drop_port` on the last receiver of a well-formed channel: the counter
is forced to the sentinel (draining residual items if needed) and the
receiver refcount reaches zero. -/
theorem drop_port_spec {T : Type} {k : Nat} {c : Canal T}
    (hk : LockFreeQueue.WFk k c.queue) (hst : 0 ≤ c.steals)
    (hcnt : c.cnt = DISCONNECTED ∨
      c.cnt = (LockFreeQueue.size c.queue : Int) + c.steals)
    (hpo : c.ports = 1) :
    ∃ c', drop_port c = some c' ∧ c'.cnt = DISCONNECTED ∧ c'.ports = 0 ∧
      c'.channels = c.channels ∧ c'.steals = c.steals := by
  obtain ⟨q', hloop⟩ := dropPortLoop_spec hk c.steals c.cnt hst hcnt
  simp only [drop_port, hloop]
  rw [if_pos hpo]
  refine ⟨_, rfl, rfl, ?_, rfl, rfl⟩
  show c.ports - 1 = 0
  omega

end Canal

/-- Claim C9: from a well-formed channel with one sender and one receiver
refcount, dropping both handles in either order establishes the destruction
precondition: counter at the sentinel and both refcounts zero, so the
assertions in `Canal`'s destructor hold. -/
theorem claim_C9 (T : Type) (c : Canal T) (hWF : Canal.WF c)
    (hch : c.channels = 1) (hpo : c.ports = 1) :
    (∃ c1 c2, Canal.drop_chan c = some c1 ∧ Canal.drop_port c1 = some c2 ∧
      c2.cnt = DISCONNECTED ∧ c2.channels = 0 ∧ c2.ports = 0) ∧
    (∃ c1 c2, Canal.drop_port c = some c1 ∧ Canal.drop_chan c1 = some c2 ∧
      c2.cnt = DISCONNECTED ∧ c2.channels = 0 ∧ c2.ports = 0) := by
  obtain ⟨⟨k, hk⟩, hst, hcnt⟩ := hWF
  have hcnt0 : c.cnt = DISCONNECTED ∨ 0 ≤ c.cnt := by
    rcases hcnt with h | h
    · exact Or.inl h
    · right
      rw [h]
      have := Int.natCast_nonneg (LockFreeQueue.size c.queue)
      omega
  constructor
  · -- sender first, then receiver
    obtain ⟨c1, hdc, h1, h2, h3, h4, h5⟩ := Canal.drop_chan_spec hch hcnt0
    obtain ⟨c2, hdp, g1, g2, g3, g4⟩ := Canal.drop_port_spec
      (by rw [h2]; exact hk) (by rw [h3]; exact hst) (Or.inl h1)
      (by rw [h5]; exact hpo)
    exact ⟨c1, c2, hdc, hdp, g1, by rw [g3, h4], g2⟩
  · -- receiver first, then sender
    obtain ⟨c1, hdp, g1, g2, g3, g4⟩ := Canal.drop_port_spec hk hst hcnt hpo
    obtain ⟨c2, hdc, h1, h2, h3, h4, h5⟩ := Canal.drop_chan_spec
      (by rw [g3]; exact hch) (Or.inl g1)
    exact ⟨c1, c2, hdp, hdc, h1, h4, by rw [h5, g2]⟩

/-- Witness for C9 at a concrete one-item one-sender one-receiver channel. -/
theorem claim_C9_witness :
    (∃ c1 c2, Canal.drop_chan wcOpen = some c1 ∧
      Canal.drop_port c1 = some c2 ∧
      c2.cnt = DISCONNECTED ∧ c2.channels = 0 ∧ c2.ports = 0) ∧
    (∃ c1 c2, Canal.drop_port wcOpen = some c1 ∧
      Canal.drop_chan c1 = some c2 ∧
      c2.cnt = DISCONNECTED ∧ c2.channels = 0 ∧ c2.ports = 0) :=
  claim_C9 Nat wcOpen ⟨⟨1, by decide⟩, by decide, by decide⟩ rfl rfl
